import Mathlib

/-!
# evesrp: `static/js/custom-pourover.js`

A shallow embedding of the client-side list code of evesrp (the pager window,
the sort comparators, the token labels, the history replay and the column
header toggle) together with the properties proved about it.

Conventions of the embedding:

* JavaScript numbers that hold integers are `Int` (loop counters are `Nat`);
  where the code computes with them beyond what a double holds exactly (the
  subtraction in `NumericalSort`, the coercion to a string in `padNum`), the
  rounding of doubles is part of the embedding;
* JavaScript strings are `List Char`;
* `null` in an array of page numbers is `none`;
* the sentinel `false` returned by `getSort()` is `none`;
* a handler that calls into the view is a function on an explicit state that
  also records the calls it makes.
-/

namespace EveSRP

/-! ## Page window (`pageNumbers`, lines 45-77) -/

/-- The `options` argument of `pageNumbers`. -/
structure Options where
  left_edge : Int
  left_current : Int
  right_current : Int
  right_edge : Int
  deriving DecidableEq, Repr

/-- The record assigned to `options` when the argument is `undefined`. -/
def defaultOptions : Options :=
  { left_edge := 2, left_current := 2, right_current := 5, right_edge := 2 }

/-- The default options with `right_edge` set to 0. -/
def noRightEdgeOptions : Options :=
  { left_edge := 2, left_current := 2, right_current := 5, right_edge := 0 }

/-- One iteration of the `for` loop of `pageNumbers`: `pages` is the array built
so far and `i` the loop counter. `pages[pages.length - 1] !== null` holds for
the empty array too (`undefined !== null`). -/
def pageNumbersStep (num_pages current_page : Int) (options : Options)
    (pages : List (Option Nat)) (i : Nat) : List (Option Nat) :=
  if (i : Int) < options.left_edge then
    pages ++ [some i]
  else if (current_page - options.left_current - 1) < (i : Int) ∧
      (i : Int) < (current_page + options.right_current) then
    pages ++ [some i]
  else if (num_pages - options.right_edge - 1) < (i : Int) then
    pages ++ [some i]
  else if pages.getLast? ≠ some none then
    pages ++ [none]
  else
    pages

/-- The function `pageNumbers(num_pages, current_page, options)`; an omitted
`options` is `none`. The loop `for (i = 0; i < num_pages; ++i)` runs over
`0, ..., num_pages - 1` and not at all when `num_pages ≤ 0`. -/
def pageNumbers (num_pages current_page : Int) (options : Option Options) :
    List (Option Nat) :=
  let options := match options with
    | none => defaultOptions
    | some o => o
  (List.range num_pages.toNat).foldl (pageNumbersStep num_pages current_page options) []

/-- The reference generator `Pagination.iter_pages` of Flask-SQLAlchemy, written
after its statement in the specification: one step for the page number `num`,
on the state `(last, yielded)`. -/
def iter_pages_step (pages page : Int) (left_edge left_current right_current right_edge : Int)
    (st : Int × List (Option Int)) (num : Int) : Int × List (Option Int) :=
  if num ≤ left_edge ∨ (num > page - left_current - 1 ∧ num < page + right_current) ∨
      num > pages - right_edge then
    (num, (if st.1 + 1 ≠ num then st.2 ++ [none] else st.2) ++ [some num])
  else
    st

/-- The sequence yielded by `iter_pages` on a pagination with `pages` pages whose
current page is `page` (1-indexed): `last = 0`, then `num` runs over
`1, ..., pages`. -/
def iter_pages (pages : Nat) (page : Int)
    (left_edge left_current right_current right_edge : Int) : List (Option Int) :=
  (((List.range pages).map (fun k => ((k : Int) + 1))).foldl
    (iter_pages_step pages page left_edge left_current right_current right_edge) (0, [])).2

/-- Membership test of the specification for the page index `i`: `i < left_edge`,
or `current_page - left_current - 1 < i < current_page + right_current`, or
`i > num_pages - right_edge - 1`. -/
def included (num_pages current_page : Int) (options : Options) (i : Nat) : Bool :=
  decide ((i : Int) < options.left_edge ∨
    (current_page - options.left_current - 1 < (i : Int) ∧
      (i : Int) < current_page + options.right_current) ∨
    (i : Int) > num_pages - options.right_edge - 1)

/-- Every maximal run of consecutive `none` entries is replaced by a single
`none`, at the position of the run. -/
def collapseGaps : List (Option Nat) → List (Option Nat)
  | [] => []
  | none :: none :: rest => collapseGaps (none :: rest)
  | x :: rest => x :: collapseGaps rest

/-- The window of the specification: every index of `[0, num_pages)` in order,
an index that is not included being a gap, and runs of gaps collapsed. -/
def windowSpec (num_pages : Nat) (current_page : Int) (options : Options) :
    List (Option Nat) :=
  collapseGaps ((List.range num_pages).map
    (fun i => if included num_pages current_page options i then some i else none))

/-- The array without its last entry when that entry is `null`. -/
def dropTrailingGap (pages : List (Option Nat)) : List (Option Nat) :=
  if pages.getLast? = some none then pages.dropLast else pages

/-- The state `(last, yielded)` of `iter_pages` after the page numbers
`1, ..., k`. -/
def iterState (pages : Nat) (page : Int) (o : Options) (k : Nat) : Int × List (Option Int) :=
  ((List.range k).map (fun k => ((k : Int) + 1))).foldl
    (iter_pages_step pages page o.left_edge o.left_current o.right_current o.right_edge) (0, [])

/-! ## Pager rebuild in `RequestsView.render` (lines 351-385) -/

/-- The entries `render` appends to `ul.pagination`. A page entry carries the
number shown, `page_nums[i] + 1`. -/
inductive PagerItem where
  | prev_disabled
  | prev_link
  | page_link (shown : Int)
  | page_active (shown : Int)
  | ellipsis
  | next_disabled
  | next_link
  deriving DecidableEq, Repr

/-- The element `ul.pagination`: whether its `style` attribute is
`display: none;`, and its children. -/
structure Pager where
  hidden : Bool
  items : List PagerItem
  deriving DecidableEq, Repr

/-- The field `page_size` of `RequestsView`. -/
def page_size : Nat := 20

/-- The expression `Math.ceil(this.match_set.length()/this.page_size - 1) + 1`,
in exact rational arithmetic. -/
def numPages (match_len : Nat) : Int :=
  Int.ceil ((match_len : ℚ) / (page_size : ℚ) - 1) + 1

/-- One iteration of the loop over `page_nums` in `render`. -/
def renderPageNum (current_page : Int) (items : List PagerItem) (p : Option Nat) :
    List PagerItem :=
  match p with
  | some n =>
    if (n : Int) ≠ current_page then items ++ [PagerItem.page_link ((n : Int) + 1)]
    else items ++ [PagerItem.page_active ((n : Int) + 1)]
  | none => items ++ [PagerItem.ellipsis]

/-- The pager rebuild of `render`: `pager` is the element before the call,
`match_len` is `this.match_set.length()`. The branch that shows the pager
leaves the `style` attribute as it was. -/
def renderPager (pager : Pager) (match_len : Nat) (current_page : Int) : Pager :=
  let num_pages := numPages match_len
  let pager : Pager := { pager with items := [] }
  if num_pages = 1 then
    { pager with hidden := true }
  else
    let items := pager.items ++
      [if current_page = 0 then PagerItem.prev_disabled else PagerItem.prev_link]
    let page_nums := pageNumbers num_pages current_page none
    let items := page_nums.foldl (renderPageNum current_page) items
    let items := items ++
      [if current_page = num_pages - 1 then PagerItem.next_disabled else PagerItem.next_link]
    { pager with items := items }

/-! ## Column header click handler (lines 428-456) -/

/-- The value of `newSort` that the click handler of `th a.heading` passes to
`request_view.setSort`. `colName` is the column of the header, `currentSort`
the result of `getSort()`. `slice(0, -4)` drops the last four characters and
`slice(-3)` keeps the last three. In the `dsc` branch the source assigns to
another variable (`newsort`), so `newSort` stays empty there. -/
def headingClick (colName : List Char) (currentSort : Option (List Char)) : List Char :=
  let newSort : List Char := []
  let newSort :=
    match currentSort with
    | none => newSort
    | some cs =>
      if cs.take (cs.length - 4) = colName then
        let direction := cs.drop (cs.length - 3)
        if direction = "asc".toList then colName ++ "_dsc".toList
        else if direction = "dsc".toList then newSort
        else newSort
      else newSort
  let newSort := if newSort = [] then colName ++ "_asc".toList else newSort
  newSort

/-! ## History replay (lines 414-423) and pager links (lines 268-292) -/

/-- What the handlers observe of `request_view`: the field `current_page` and
the result of `getSort()`. -/
structure View where
  current_page : Int
  current_sort : Option (List Char)
  deriving DecidableEq, Repr

/-- The data of a history entry, `{page, sort}`. -/
structure HistoryState where
  page : Int
  sort : Option (List Char)
  deriving DecidableEq, Repr

/-- The calls a handler makes on the view and on `History`. -/
inductive Call where
  | setPage (n : Int)
  | page (delta : Int)
  | setSort (name : Option (List Char))
  | pushState (data : HistoryState) (path_page : Int)
  deriving DecidableEq, Repr

/-- How a call into the PourOver library ends: it returns, or it throws; either
way it leaves the view in some state. -/
inductive Outcome where
  | returned (view : View)
  | threw (view : View)
  deriving DecidableEq, Repr

/-- The methods of `PourOver.View` the handlers call. The library is not part
of the sources, so its methods are parameters: each may install any page or
sort it likes (a clamped page, say) and may throw. -/
structure ViewLibrary where
  setPage : View → Int → Outcome
  page : View → Int → Outcome
  setSort : View → Option (List Char) → Outcome

/-- The view together with the calls made so far. -/
structure World where
  view : View
  calls : List Call
  deriving DecidableEq, Repr

/-- A library call made from a handler: the call is recorded; when it throws,
the exception leaves the handler, which is the `error` case. -/
def World.call (w : World) (c : Call) (o : Outcome) : Except World World :=
  match o with
  | Outcome.returned v => Except.ok { view := v, calls := w.calls ++ [c] }
  | Outcome.threw v => Except.error { view := v, calls := w.calls ++ [c] }

/-- The call `request_view.setPage(n)`. -/
def World.setPage (lib : ViewLibrary) (w : World) (n : Int) : Except World World :=
  w.call (Call.setPage n) (lib.setPage w.view n)

/-- The call `request_view.page(delta)`. -/
def World.page (lib : ViewLibrary) (w : World) (delta : Int) : Except World World :=
  w.call (Call.page delta) (lib.page w.view delta)

/-- The call `request_view.setSort(name)`. -/
def World.setSort (lib : ViewLibrary) (w : World) (name : Option (List Char)) :
    Except World World :=
  w.call (Call.setSort name) (lib.setSort w.view name)

/-- The call `request_view.getSort()`: the current sort name, or `false`
(`none`). -/
def World.getSort (w : World) : Option (List Char) := w.view.current_sort

/-- The call `History.pushState(data, null, path)`; of the path only the page
number written into it is kept. -/
def World.pushState (w : World) (data : HistoryState) (path_page : Int) :
    Except World World :=
  Except.ok { w with calls := w.calls ++ [Call.pushState data path_page] }

/-- The world a handler leaves behind, whether it returned or threw. -/
def finalWorld : Except World World → World
  | Except.ok w => w
  | Except.error w => w

/-- The handler of `statechange`; `state` is `History.getState().data`. -/
def statechange (lib : ViewLibrary) (state : HistoryState) (w : World) :
    Except World World := do
  let w ← if state.page ≠ w.view.current_page then w.setPage lib state.page else pure w
  let w ← if state.sort ≠ w.getSort then w.setSort lib state.sort else pure w
  pure w

/-- The link a pager click comes from: `#prev_page`, `#next_page`, or a link
whose text is the number `shown`. -/
inductive PagerLink where
  | prev_page
  | next_page
  | number (shown : Int)
  deriving DecidableEq, Repr

/-- The handler `pager_a_click`. -/
def pager_a_click (lib : ViewLibrary) (link : PagerLink) (w : World) :
    Except World World := do
  let w ← match link with
    | PagerLink.prev_page => w.page lib (-1)
    | PagerLink.next_page => w.page lib 1
    | PagerLink.number shown => w.setPage lib (shown - 1)
  w.pushState { page := w.view.current_page, sort := w.getSort } (w.view.current_page + 1)

/-- The page nearest to `n` among the pages `0, ..., total_pages - 1`. -/
def clampPage (total_pages n : Int) : Int := max 0 (min n (total_pages - 1))

/-- A library for concrete instances: a view of `total_pages` pages whose
registry holds the sort names `known`. A page out of range is clamped; an
unknown sort name throws and leaves the view unsorted. -/
def clampingLibrary (total_pages : Int) (known : List (List Char)) : ViewLibrary :=
  { setPage := fun v n => Outcome.returned { v with current_page := clampPage total_pages n },
    page := fun v delta =>
      Outcome.returned { v with current_page := clampPage total_pages (v.current_page + delta) },
    setSort := fun v name =>
      match name with
      | some s =>
        if s ∈ known then Outcome.returned { v with current_sort := some s }
        else Outcome.threw { v with current_sort := none }
      | none => Outcome.threw { v with current_sort := none } }

/-! ## JavaScript numbers that hold integers -/

/-- The number of binary digits of `m`, found by halving; `fuel` bounds the
number of halvings. -/
def bitLengthAux : Nat → Nat → Nat
  | 0, _ => 0
  | fuel + 1, m => if m = 0 then 0 else bitLengthAux fuel (m / 2) + 1

/-- The number of binary digits of `m`. -/
def bitLength (m : Nat) : Nat := bitLengthAux m m

/-- The magnitude of the double nearest to the natural number `m`: 53 binary
digits are kept and a tie goes to the even significand. The exponent is not
bounded here. -/
def roundNat (m : Nat) : Nat :=
  if m < 2 ^ 53 then m
  else
    let u := 2 ^ (bitLength m - 53)
    let q := m / u
    let r := m % u
    if 2 * r < u then q * u
    else if u < 2 * r then (q + 1) * u
    else if q % 2 = 0 then q * u
    else (q + 1) * u

/-- A JavaScript number whose value is an integer, an infinity, or `NaN`. The
two zeros are not told apart. -/
inductive JSNumber where
  | finite (value : Int)
  | infinity (negative : Bool)
  | nan
  deriving DecidableEq, Repr

/-- The number value of the exact integer `x`: the nearest double, and an
infinity when the rounded magnitude reaches `2 ^ 1024`, that is when it has
1025 binary digits. -/
def JSNumber.ofInt (x : Int) : JSNumber :=
  let m := roundNat x.natAbs
  if 1025 ≤ bitLength m then JSNumber.infinity (decide (x < 0))
  else JSNumber.finite (if x < 0 then -(m : Int) else (m : Int))

/-- The difference `a - b` of two numbers that hold the integers `a` and `b`:
the exact difference, rounded to a double. -/
def jsSub (a b : Int) : JSNumber := JSNumber.ofInt (a - b)

/-- The product `-1 * x`, which is exact for every number. -/
def jsNegOneTimes : JSNumber → JSNumber
  | JSNumber.finite value => JSNumber.finite (-1 * value)
  | JSNumber.infinity negative => JSNumber.infinity (!negative)
  | JSNumber.nan => JSNumber.nan

/-- Whether a number is greater than zero. -/
def JSNumber.isPositive : JSNumber → Bool
  | JSNumber.finite value => decide (0 < value)
  | JSNumber.infinity negative => !negative
  | JSNumber.nan => false

/-- Whether a number is less than zero. -/
def JSNumber.isNegative : JSNumber → Bool
  | JSNumber.finite value => decide (value < 0)
  | JSNumber.infinity negative => negative
  | JSNumber.nan => false

/-! ## Sorts (`addRequestSorts`, lines 79-151) -/

/-- A request record as delivered by the bulk fetch. The numbers `id` and
`payout` hold integers. The two timestamps hold the instant of a valid `Date`,
the integer that `getTime()` returns. -/
structure Request where
  id : Int
  href : List Char
  status : List Char
  alliance : List Char
  corporation : List Char
  pilot : List Char
  ship : List Char
  division : List Char
  system : List Char
  kill_timestamp : Int
  submit_timestamp : Int
  payout : Int
  deriving DecidableEq, Repr

/-- The attributes that get an `AlphabeticalSort`. -/
inductive AlphaAttr where
  | alliance | corporation | pilot | ship | division | system
  deriving DecidableEq, Repr

/-- The attributes that get a `TimestampSort`. -/
inductive TimeAttr where
  | kill_timestamp | submit_timestamp
  deriving DecidableEq, Repr

/-- The attributes that get a `NumericalSort`. -/
inductive NumAttr where
  | payout | id
  deriving DecidableEq, Repr

/-- The name of an alphabetical attribute. -/
def AlphaAttr.name : AlphaAttr → List Char
  | alliance => "alliance".toList
  | corporation => "corporation".toList
  | pilot => "pilot".toList
  | ship => "ship".toList
  | division => "division".toList
  | system => "system".toList

/-- The name of a timestamp attribute. -/
def TimeAttr.name : TimeAttr → List Char
  | kill_timestamp => "kill_timestamp".toList
  | submit_timestamp => "submit_timestamp".toList

/-- The name of a numerical attribute. -/
def NumAttr.name : NumAttr → List Char
  | payout => "payout".toList
  | id => "id".toList

/-- The lookup `a[this['attr']]` for an alphabetical attribute. -/
def Request.alpha (r : Request) : AlphaAttr → List Char
  | AlphaAttr.alliance => r.alliance
  | AlphaAttr.corporation => r.corporation
  | AlphaAttr.pilot => r.pilot
  | AlphaAttr.ship => r.ship
  | AlphaAttr.division => r.division
  | AlphaAttr.system => r.system

/-- The lookup `a[this['attr']].getTime()` for a timestamp attribute. -/
def Request.getTime (r : Request) : TimeAttr → Int
  | TimeAttr.kill_timestamp => r.kill_timestamp
  | TimeAttr.submit_timestamp => r.submit_timestamp

/-- The lookup `a[this['attr']]` for a numerical attribute. -/
def Request.num (r : Request) : NumAttr → Int
  | NumAttr.payout => r.payout
  | NumAttr.id => r.id

/-- A `PourOver.Sort` object: its name, its options `attr` and `base_sort` collapsed into
`attr` (undefined for a reversed sort), and its comparator `fn`. -/
structure SortObject where
  name : List Char
  attr : Option (List Char)
  fn : Request → Request → JSNumber

/-- The comparator `fn` of `AlphabeticalSort`; `localeCompare` belongs to the
host and is a parameter. -/
def AlphabeticalSort_fn (localeCompare : List Char → List Char → JSNumber) (attr : AlphaAttr)
    (a b : Request) : JSNumber :=
  let a_ := a.alpha attr
  let b_ := b.alpha attr
  localeCompare a_ b_

/-- The comparator `fn` of `TimestampSort`. -/
def TimestampSort_fn (attr : TimeAttr) (a b : Request) : JSNumber :=
  let a_ := a.getTime attr
  let b_ := b.getTime attr
  if a_ < b_ then JSNumber.finite (-1)
  else if a_ > b_ then JSNumber.finite 1
  else JSNumber.finite 0

/-- The comparator `fn` of `NumericalSort`: the subtraction is the one of
JavaScript numbers. -/
def NumericalSort_fn (attr : NumAttr) (a b : Request) : JSNumber :=
  let a_ := a.num attr
  let b_ := b.num attr
  jsSub a_ b_

/-- The comparator `fn` of `ReversedSort`, for the sort `base_sort`. -/
def ReversedSort_fn (base_sort : SortObject) (a b : Request) : JSNumber :=
  jsNegOneTimes (base_sort.fn a b)

/-- The sort `new AlphabeticalSort(value + '_asc', { attr: value })`. -/
def AlphabeticalSort (localeCompare : List Char → List Char → JSNumber) (value : AlphaAttr) :
    SortObject :=
  { name := value.name ++ "_asc".toList, attr := some value.name,
    fn := AlphabeticalSort_fn localeCompare value }

/-- The sort `new TimestampSort(value + '_asc', { attr: value })`. -/
def TimestampSort (value : TimeAttr) : SortObject :=
  { name := value.name ++ "_asc".toList, attr := some value.name,
    fn := TimestampSort_fn value }

/-- The sort `new NumericalSort(value + '_asc', { attr: value })`. -/
def NumericalSort (value : NumAttr) : SortObject :=
  { name := value.name ++ "_asc".toList, attr := some value.name,
    fn := NumericalSort_fn value }

/-- The sort `new ReversedSort(value['attr'] + '_dsc', { base_sort: value })`; an
undefined `attr` concatenates as `undefined`. -/
def ReversedSort (value : SortObject) : SortObject :=
  { name := (value.attr.getD "undefined".toList) ++ "_dsc".toList, attr := none,
    fn := ReversedSort_fn value }

/-- The list `sorts` that `addRequestSorts` hands to `collection.addSorts`.
`statusSort` is the object that `PourOver.makeExplicitSort('status_asc', ...)`
returns and `localeCompare` is the host's string comparison; both are
parameters. -/
def addRequestSorts (statusSort : SortObject)
    (localeCompare : List Char → List Char → JSNumber) : List SortObject :=
  let sorts := [statusSort]
  let sorts := sorts ++
    [AlphaAttr.alliance, AlphaAttr.corporation, AlphaAttr.pilot, AlphaAttr.ship,
      AlphaAttr.division, AlphaAttr.system].map (AlphabeticalSort localeCompare)
  let sorts := sorts ++ [TimeAttr.kill_timestamp, TimeAttr.submit_timestamp].map TimestampSort
  let sorts := sorts ++ [NumAttr.payout, NumAttr.id].map NumericalSort
  let sorts := sorts ++ sorts.map ReversedSort
  sorts

/-- A list is sorted with respect to a comparator when the comparator is never
positive on an earlier and a later entry. -/
def SortedBy (fn : Request → Request → JSNumber) (l : List Request) : Prop :=
  l.Pairwise (fun a b => (fn a b).isPositive = false)

instance (fn : Request → Request → JSNumber) (l : List Request) : Decidable (SortedBy fn l) :=
  inferInstanceAs (Decidable (l.Pairwise (fun a b => (fn a b).isPositive = false)))

/-- The attributes with a timestamp or numerical sort. -/
inductive OrderedAttr where
  | time (attr : TimeAttr)
  | num (attr : NumAttr)
  deriving DecidableEq, Repr

/-- The field of the record that a timestamp or numerical attribute names. -/
def OrderedAttr.field : OrderedAttr → Request → Int
  | OrderedAttr.time TimeAttr.kill_timestamp => Request.kill_timestamp
  | OrderedAttr.time TimeAttr.submit_timestamp => Request.submit_timestamp
  | OrderedAttr.num NumAttr.payout => Request.payout
  | OrderedAttr.num NumAttr.id => Request.id

/-- The name of a timestamp or numerical attribute. -/
def OrderedAttr.name : OrderedAttr → List Char
  | OrderedAttr.time TimeAttr.kill_timestamp => "kill_timestamp".toList
  | OrderedAttr.time TimeAttr.submit_timestamp => "submit_timestamp".toList
  | OrderedAttr.num NumAttr.payout => "payout".toList
  | OrderedAttr.num NumAttr.id => "id".toList

/-- The `_asc` sort of a timestamp or numerical attribute. -/
def OrderedAttr.asc : OrderedAttr → SortObject
  | OrderedAttr.time attr => TimestampSort attr
  | OrderedAttr.num attr => NumericalSort attr

/-- The `_dsc` sort of a timestamp or numerical attribute. -/
def OrderedAttr.dsc (attr : OrderedAttr) : SortObject := ReversedSort attr.asc

/-- A request with the given `id`, `payout` and timestamps, every other field
empty; used for concrete instances. -/
def sampleRequest (id payout kill_timestamp submit_timestamp : Int) : Request :=
  { id := id, href := [], status := [], alliance := [], corporation := [], pilot := [],
    ship := [], division := [], system := [], kill_timestamp := kill_timestamp,
    submit_timestamp := submit_timestamp, payout := payout }

/-- Three requests whose `id`, `payout`, `kill_timestamp` and `submit_timestamp`
order them in four different ways. -/
def sampleRequests : List Request :=
  [sampleRequest 1 5 20 200, sampleRequest 2 1 30 100, sampleRequest 3 3 10 300]

/-! ## `padNum` (lines 35-43) -/

/-- The search for the shortest decimal that reads back as the double `x`: for
the exponents `e, e - 1, ..., 1` in turn, the two multiples of `10 ^ e` around
`x` are tried, and the first exponent with a multiple whose nearest double is
`x` gives the result, the closer multiple first and, at equal distance, the
one with the even last digit; when no exponent is left the result is `x`. -/
def shortestRoundTripAux (x : Nat) : Nat → Nat
  | 0 => x
  | e + 1 =>
    let p := 10 ^ (e + 1)
    let lo := x / p * p
    let hi := lo + p
    let okLo : Bool := decide (0 < lo ∧ roundNat lo = x)
    let okHi : Bool := decide (roundNat hi = x)
    if okLo && okHi then
      if x - lo < hi - x then lo
      else if hi - x < x - lo then hi
      else if (lo / p) % 2 = 0 then lo
      else hi
    else if okLo then lo
    else if okHi then hi
    else shortestRoundTripAux x e

/-- The integer with the fewest significant decimal digits whose nearest
double is `x`; the search starts at the exponent equal to the number of
digits of `x`. -/
def shortestRoundTrip (x : Nat) : Nat :=
  shortestRoundTripAux x (Nat.toDigits 10 x).length

/-- A digit string without its trailing zeros. -/
def stripTrailingZeros (s : List Char) : List Char :=
  (s.reverse.dropWhile (fun c => c = '0')).reverse

/-- The coercion `num + ''` for a number that holds the natural number `num`
(the number is the double nearest to `num`). With `n` the number of digits of
the shortest decimal that reads back as the number: up to `n = 21` the string
is that decimal, written out in full; beyond it is the exponent form, the
first significant digit, a point and the other significant digits if there are
any, then `e+` and `n - 1`. From `2 ^ 1024` on the number is `Infinity`. -/
def numToString (num : Nat) : List Char :=
  let x := roundNat num
  if 1025 ≤ bitLength x then "Infinity".toList
  else
    let digits := Nat.toDigits 10 (shortestRoundTrip x)
    let n := digits.length
    if n ≤ 21 then digits
    else
      match stripTrailingZeros digits with
      | [] => []
      | [d] => [d] ++ "e+".toList ++ Nat.toDigits 10 (n - 1)
      | d :: ds => [d] ++ ".".toList ++ ds ++ "e+".toList ++ Nat.toDigits 10 (n - 1)

/-- The `while` loop of `padNum`: `0 + num` puts the character `0` in front. -/
def padNumLoop (width : Nat) (num : List Char) : List Char :=
  if num.length < width then padNumLoop width ('0' :: num) else num
termination_by width - num.length
decreasing_by
  simp only [List.length_cons]
  omega

/-- The function `padNum(num, width)`. -/
def padNum (num : Nat) (width : Nat) : List Char :=
  padNumLoop width (numToString num)

/-- The number a character denotes as a decimal digit. -/
def digitValue (c : Char) : Nat := c.toNat - '0'.toNat

/-- The number a string of decimal digits denotes. -/
def decimalValue (s : List Char) : Nat :=
  s.foldl (fun acc c => 10 * acc + digitValue c) 0

/-! ## Token labels (lines 153-174) -/

/-- The object `ev.attrs` of a tokenfield event. -/
structure TokenAttrs where
  attr : List Char
  value : List Char
  label : List Char
  deriving DecidableEq, Repr

/-- The call a token handler makes on the filter `requests.filters[attrib]`,
where `attrib` is the variable the source calls after the attribute; when it
is `undefined` it is `none`. -/
inductive FilterCall where
  | unionQuery (attrib : Option (List Char)) (value : List Char)
  | removeSingleQuery (attrib : Option (List Char)) (value : List Char)
  deriving DecidableEq, Repr

/-- The handler `modifyToken`: `label = attr + ':' + value`. -/
def modifyToken (attrs : TokenAttrs) : TokenAttrs :=
  { attrs with label := attrs.attr ++ ":".toList ++ attrs.value }

/-- The two statements `data = label.split(':')` and
`data = [data[0], data.slice(1).join(':')]` shared by both handlers. -/
def parseLabel (label : List Char) : Option (List Char) × List Char :=
  let data := label.splitOn ':'
  (data.head?, ":".toList.intercalate (data.drop 1))

/-- The handler `addedToken`. -/
def addedToken (attrs : TokenAttrs) : FilterCall :=
  let data := parseLabel attrs.label
  let attrib := data.1
  let value := data.2
  FilterCall.unionQuery attrib value

/-- The handler `removedToken`. -/
def removedToken (attrs : TokenAttrs) : FilterCall :=
  let data := parseLabel attrs.label
  let attrib := data.1
  let value := data.2
  FilterCall.removeSingleQuery attrib value


/-! ## Page window: proofs -/

theorem collapseGaps_cons (x : Option Nat) (rest : List (Option Nat)) :
    collapseGaps (x :: rest) =
      if x = none ∧ rest.head? = some none then collapseGaps rest
      else x :: collapseGaps rest := by
  cases x with
  | some a => simp [collapseGaps]
  | none =>
    cases rest with
    | nil => simp [collapseGaps]
    | cons r rs =>
      cases r with
      | some b => simp [collapseGaps]
      | none => simp [collapseGaps]

theorem collapseGaps_snoc (l : List (Option Nat)) (y : Option Nat) :
    collapseGaps (l ++ [y]) =
      if y = none ∧ l.getLast? = some none then collapseGaps l
      else collapseGaps l ++ [y] := by
  induction l with
  | nil => cases y <;> simp [collapseGaps]
  | cons x rest ih =>
    cases rest with
    | nil =>
      cases x <;> cases y <;> simp [collapseGaps]
    | cons r rs =>
      rw [List.cons_append, collapseGaps_cons, collapseGaps_cons x (r :: rs), ih]
      have hl : (x :: r :: rs).getLast? = (r :: rs).getLast? := by
        simp [List.getLast?_cons_cons]
      rw [hl]
      simp only [List.cons_append, List.head?_cons]
      by_cases h1 : x = none ∧ some r = some none
      · simp only [h1, and_self, if_true]
      · simp only [h1, if_false]
        split_ifs <;> simp

theorem getLast?_collapseGaps (l : List (Option Nat)) :
    (collapseGaps l).getLast? = l.getLast? := by
  induction l using List.reverseRecOn with
  | nil => simp [collapseGaps]
  | append_singleton l y ih =>
    rw [collapseGaps_snoc]
    split_ifs with h
    · rw [ih, h.2, h.1]; simp
    · simp

theorem reduceOption_collapseGaps (l : List (Option Nat)) :
    (collapseGaps l).reduceOption = l.reduceOption := by
  induction l using List.reverseRecOn with
  | nil => simp [collapseGaps]
  | append_singleton l y ih =>
    rw [collapseGaps_snoc]
    split_ifs with h
    · rw [ih, h.1]; simp [List.reduceOption_append]
    · simp [List.reduceOption_append, ih]

theorem head?_collapseGaps (l : List (Option Nat)) :
    (collapseGaps l).head? = l.head? := by
  induction l with
  | nil => simp [collapseGaps]
  | cons x rest ih =>
    rw [collapseGaps_cons]
    split_ifs with h
    · rw [ih, h.2, h.1]; simp
    · simp

theorem chain_collapseGaps (l : List (Option Nat)) :
    List.Chain' (fun a b => ¬ (a = none ∧ b = none)) (collapseGaps l) := by
  induction l with
  | nil => simp [collapseGaps]
  | cons x rest ih =>
    rw [collapseGaps_cons]
    split_ifs with h
    · exact ih
    · rw [List.chain'_cons']
      refine ⟨?_, ih⟩
      intro y hy
      rw [head?_collapseGaps] at hy
      rintro ⟨hx, hy2⟩
      subst hy2
      exact h ⟨hx, by simpa using hy⟩

theorem pageNumbersStep_eq (num_pages current_page : Int) (options : Options)
    (pages : List (Option Nat)) (i : Nat) :
    pageNumbersStep num_pages current_page options pages i =
      if included num_pages current_page options i then pages ++ [some i]
      else if pages.getLast? ≠ some none then pages ++ [none] else pages := by
  unfold pageNumbersStep included
  by_cases h1 : (i : Int) < options.left_edge
  · simp [h1]
  · by_cases h2 : current_page - options.left_current - 1 < (i : Int) ∧
        (i : Int) < current_page + options.right_current
    · simp [h1, h2]
    · by_cases h3 : num_pages - options.right_edge - 1 < (i : Int)
      · simp [h1, h2, h3]
      · simp only [h1, h2, h3, if_false, gt_iff_lt, or_self, decide_False]
        simp

theorem foldl_pageNumbersStep (num_pages current_page : Int) (options : Options) (k : Nat) :
    (List.range k).foldl (pageNumbersStep num_pages current_page options) [] =
      collapseGaps ((List.range k).map
        (fun i => if included num_pages current_page options i then some i else none)) := by
  induction k with
  | zero => simp [collapseGaps]
  | succ k ih =>
    rw [List.range_succ, List.foldl_append, List.map_append, ih]
    simp only [List.foldl_cons, List.foldl_nil, List.map_cons, List.map_nil]
    rw [pageNumbersStep_eq, collapseGaps_snoc, getLast?_collapseGaps]
    by_cases hk : included num_pages current_page options k = true
    · simp [hk]
    · simp only [hk, if_false, true_and]
      split_ifs <;> simp_all

theorem pageNumbers_eq_windowSpec (num_pages : Nat) (current_page : Int) (options : Options) :
    pageNumbers num_pages current_page (some options) =
      windowSpec num_pages current_page options := by
  unfold pageNumbers windowSpec
  simp only [Int.toNat_ofNat]
  exact foldl_pageNumbersStep _ _ _ _

theorem reduceOption_map_included (p : Nat → Bool) (l : List Nat) :
    (l.map (fun i => if p i then some i else none)).reduceOption = l.filter p := by
  induction l with
  | nil => simp
  | cons a t ih =>
    by_cases h : p a = true
    · simp [h, List.reduceOption_cons_of_some, ih]
    · simp [h, List.reduceOption_cons_of_none, ih]

theorem dropTrailingGap_snoc_some (pages : List (Option Nat)) (i : Nat) :
    dropTrailingGap (pages ++ [some i]) = pages ++ [some i] := by
  simp [dropTrailingGap]

theorem dropTrailingGap_snoc_none (pages : List (Option Nat)) :
    dropTrailingGap (pages ++ [none]) = pages := by
  simp [dropTrailingGap]

theorem eq_dropTrailingGap_snoc (pages : List (Option Nat))
    (h : pages.getLast? = some none) : pages = dropTrailingGap pages ++ [none] := by
  induction pages using List.reverseRecOn with
  | nil => simp at h
  | append_singleton l y _ =>
    simp at h
    subst h
    rw [dropTrailingGap_snoc_none]

theorem dropTrailingGap_of_ne (pages : List (Option Nat))
    (h : pages.getLast? ≠ some none) : dropTrailingGap pages = pages := by
  simp [dropTrailingGap, h]

theorem iter_pages_step_eq (num_pages : Nat) (current_page : Int) (o : Options)
    (st : Int × List (Option Int)) (k : Nat) :
    iter_pages_step num_pages (current_page + 1) o.left_edge o.left_current o.right_current
        o.right_edge st ((k : Int) + 1) =
      if included num_pages current_page o k then
        ((k : Int) + 1, (if st.1 ≠ k then st.2 ++ [none] else st.2) ++ [some ((k : Int) + 1)])
      else st := by
  unfold iter_pages_step included
  have hc : ((k : Int) + 1 ≤ o.left_edge ∨
      ((k : Int) + 1 > current_page + 1 - o.left_current - 1 ∧
        (k : Int) + 1 < current_page + 1 + o.right_current) ∨
      (k : Int) + 1 > (num_pages : Int) - o.right_edge) ↔
      ((k : Int) < o.left_edge ∨
      (current_page - o.left_current - 1 < (k : Int) ∧
        (k : Int) < current_page + o.right_current) ∨
      (k : Int) > (num_pages : Int) - o.right_edge - 1) := by
    constructor <;> intro h <;> omega
  have hl : (st.1 + 1 ≠ (k : Int) + 1) ↔ st.1 ≠ k := by
    constructor <;> intro h <;> omega
  simp only [hc, hl, decide_eq_true_eq]

theorem window_invariant (num_pages : Nat) (current_page : Int) (o : Options) (k : Nat) :
    (iterState num_pages (current_page + 1) o k).1 ≤ k ∧
    (((List.range k).foldl (pageNumbersStep num_pages current_page o) []).getLast? = some none ↔
      (iterState num_pages (current_page + 1) o k).1 ≠ k) ∧
    (iterState num_pages (current_page + 1) o k).2.map (Option.map (fun num => num - 1)) =
      (dropTrailingGap ((List.range k).foldl (pageNumbersStep num_pages current_page o) [])).map
        (Option.map Nat.cast) := by
  induction k with
  | zero => simp [iterState, dropTrailingGap]
  | succ k ih =>
    obtain ⟨h1, h2, h3⟩ := ih
    have hs : iterState num_pages (current_page + 1) o (k + 1) =
        iter_pages_step num_pages (current_page + 1) o.left_edge o.left_current o.right_current
          o.right_edge (iterState num_pages (current_page + 1) o k) ((k : Int) + 1) := by
      simp [iterState, List.range_succ, List.foldl_append]
    rw [hs, iter_pages_step_eq, List.range_succ, List.foldl_append]
    simp only [List.foldl_cons, List.foldl_nil]
    rw [pageNumbersStep_eq]
    generalize (List.range k).foldl (pageNumbersStep num_pages current_page o) [] = P at h2 h3 ⊢
    generalize iterState num_pages (current_page + 1) o k = st at h1 h2 h3 ⊢
    by_cases hk : included num_pages current_page o k = true
    · simp only [hk, if_true]
      refine ⟨by push_cast; omega, ?_, ?_⟩
      · simp
      · rw [dropTrailingGap_snoc_some]
        by_cases hl : st.1 = k
        · have hP : P.getLast? ≠ some none := fun h => (h2.1 h) hl
          rw [dropTrailingGap_of_ne P hP] at h3
          simp [hl, h3]
        · have hP : P.getLast? = some none := h2.2 hl
          have hP2 := eq_dropTrailingGap_snoc P hP
          simp only [hl, ne_eq, not_false_eq_true, if_true, List.map_append, h3, List.map_cons,
            Option.map_none', List.map_nil, Option.map_some', add_sub_cancel_right]
          conv_rhs => rw [hP2]
          simp
    · rw [Bool.not_eq_true] at hk
      simp only [hk, Bool.false_eq_true, if_false]
      by_cases hP : P.getLast? = some none
      · simp only [hP, ne_eq, not_true_eq_false, if_false, true_iff]
        refine ⟨by push_cast; omega, by push_cast; omega, h3⟩
      · simp only [hP, ne_eq, not_false_eq_true, if_true]
        refine ⟨by push_cast; omega, ?_, ?_⟩
        · have hne : ¬ st.1 = (k : Int) + 1 := by omega
          simp [hne]
        · rw [dropTrailingGap_snoc_none]
          rw [dropTrailingGap_of_ne P hP] at h3
          exact h3

theorem iter_pages_eq_dropTrailingGap (num_pages : Nat) (current_page : Int) (o : Options) :
    (iter_pages num_pages (current_page + 1) o.left_edge o.left_current o.right_current
        o.right_edge).map (Option.map (fun num => num - 1)) =
      (dropTrailingGap (pageNumbers num_pages current_page (some o))).map
        (Option.map Nat.cast) := by
  have h := (window_invariant num_pages current_page o num_pages).2.2
  simpa [iterState, iter_pages, pageNumbers] using h

theorem pageNumbers_getLast?_of_right_edge (num_pages : Nat) (current_page : Int) (o : Options)
    (h : 1 ≤ o.right_edge) :
    (pageNumbers num_pages current_page (some o)).getLast? ≠ some none := by
  unfold pageNumbers
  simp only [Int.toNat_ofNat]
  cases num_pages with
  | zero => simp
  | succ n =>
    rw [List.range_succ, List.foldl_append]
    simp only [List.foldl_cons, List.foldl_nil]
    rw [pageNumbersStep_eq]
    have hi : included ((n + 1 : Nat) : Int) current_page o n = true := by
      unfold included
      simp only [decide_eq_true_eq]
      right; right
      push_cast
      omega
    rw [if_pos hi]
    simp

/-- With `right_edge ≥ 1` the last page is always listed, and `pageNumbers` is
`iter_pages` shifted to 0-indexed pages. -/
theorem pageNumbers_eq_iter_pages_of_right_edge (num_pages : Nat) (current_page : Int)
    (o : Options) (h : 1 ≤ o.right_edge) :
    (iter_pages num_pages (current_page + 1) o.left_edge o.left_current o.right_current
        o.right_edge).map (Option.map (fun num => num - 1)) =
      (pageNumbers num_pages current_page (some o)).map (Option.map Nat.cast) := by
  rw [iter_pages_eq_dropTrailingGap,
    dropTrailingGap_of_ne _ (pageNumbers_getLast?_of_right_edge num_pages current_page o h)]


/-! ## Pager rebuild: proofs -/

theorem numPages_zero : numPages 0 = 0 := by
  unfold numPages
  have h : ((0 : Nat) : ℚ) / (page_size : ℚ) - 1 = ((-1 : Int) : ℚ) := by simp
  rw [h, Int.ceil_intCast]
  rfl

theorem numPages_eq_one (n : Nat) (h1 : 1 ≤ n) (h2 : n ≤ page_size) : numPages n = 1 := by
  unfold numPages
  have h : Int.ceil ((n : ℚ) / (page_size : ℚ) - 1) = 0 := by
    rw [Int.ceil_eq_iff]
    have hn : (0 : ℚ) < n := by exact_mod_cast h1
    have hn2 : (n : ℚ) ≤ (page_size : ℚ) := by exact_mod_cast h2
    have hp : (0 : ℚ) < (page_size : ℚ) := by simp [page_size]
    constructor
    · have : (0 : ℚ) < (n : ℚ) / (page_size : ℚ) := div_pos hn hp
      simp only [Int.cast_zero, zero_sub]
      linarith
    · have : (n : ℚ) / (page_size : ℚ) ≤ 1 := (div_le_one hp).mpr hn2
      simp only [Int.cast_zero]
      linarith
  rw [h]
  rfl

theorem renderPager_hidden (pager : Pager) (n : Nat) (current_page : Int)
    (h1 : 1 ≤ n) (h2 : n ≤ page_size) :
    renderPager pager n current_page = { hidden := true, items := [] } := by
  simp [renderPager, numPages_eq_one n h1 h2]

/-! ## Column header click: proofs -/

theorem headingClick_none (col : List Char) :
    headingClick col none = col ++ "_asc".toList := by
  simp [headingClick]

theorem headingClick_same_asc (col : List Char) :
    headingClick col (some (col ++ "_asc".toList)) = col ++ "_dsc".toList := by
  simp [headingClick]

theorem headingClick_same_dsc (col : List Char) :
    headingClick col (some (col ++ "_dsc".toList)) = col ++ "_asc".toList := by
  simp [headingClick]

theorem headingClick_other_asc (col other : List Char) (h : other ≠ col) :
    headingClick col (some (other ++ "_asc".toList)) = col ++ "_asc".toList := by
  simp [headingClick, h]

theorem headingClick_other_dsc (col other : List Char) (h : other ≠ col) :
    headingClick col (some (other ++ "_dsc".toList)) = col ++ "_asc".toList := by
  simp [headingClick, h]

theorem headingClick_stem (col : List Char) (s : Option (List Char)) :
    headingClick col s = col ++ "_asc".toList ∨ headingClick col s = col ++ "_dsc".toList := by
  unfold headingClick
  cases s with
  | none => simp
  | some cs =>
    simp only
    split_ifs <;> simp_all

/-! ## History replay: proofs -/

theorem statechange_same (lib : ViewLibrary) (w : World) :
    statechange lib { page := w.view.current_page, sort := w.view.current_sort } w =
      Except.ok w := by
  simp [statechange, World.getSort, pure, Except.pure, bind, Except.bind]

theorem finalWorld_call_calls (w : World) (c : Call) (o : Outcome) :
    (finalWorld (w.call c o)).calls = w.calls ++ [c] := by
  cases o <;> rfl

/-- For every library: the handler calls `setPage(state.page)` exactly when the
page differs, and after it at most the one call `setSort(state.sort)`. -/
theorem statechange_calls_any (lib : ViewLibrary) (state : HistoryState) (w : World) :
    ∃ rest : List Call,
      (finalWorld (statechange lib state w)).calls =
        w.calls ++
          ((if state.page ≠ w.view.current_page then [Call.setPage state.page] else []) ++
            rest) ∧
      (rest = [] ∨ rest = [Call.setSort state.sort]) := by
  unfold statechange
  by_cases hp : state.page = w.view.current_page
  · simp only [hp, ne_eq, not_true_eq_false, if_false, pure, Except.pure, bind, Except.bind,
      List.nil_append]
    by_cases hs : state.sort = w.getSort
    · exact ⟨[], by simp [hs, finalWorld], Or.inl rfl⟩
    · refine ⟨[Call.setSort state.sort], ?_, Or.inr rfl⟩
      simp only [hs, not_false_eq_true, if_true, World.setSort]
      cases lib.setSort w.view state.sort <;> rfl
  · simp only [hp, ne_eq, not_false_eq_true, if_true, bind, Except.bind, World.setPage]
    cases hcall : lib.setPage w.view state.page with
    | threw v => exact ⟨[], by simp [World.call, finalWorld], Or.inl rfl⟩
    | returned v =>
      simp only [World.call, pure, Except.pure, World.getSort]
      by_cases hs : state.sort = v.current_sort
      · exact ⟨[], by simp [hs, finalWorld], Or.inl rfl⟩
      · refine ⟨[Call.setSort state.sort], ?_, Or.inr rfl⟩
        simp only [hs, ne_eq, not_false_eq_true, if_true, World.setSort]
        cases lib.setSort v state.sort <;> simp [World.call, finalWorld]

theorem statechange_calls (lib : ViewLibrary) (state : HistoryState) (w : World)
    (hpage : state.page ≠ w.view.current_page →
      ∃ v, lib.setPage w.view state.page = Outcome.returned v ∧
        v.current_sort = w.view.current_sort) :
    (finalWorld (statechange lib state w)).calls =
      w.calls ++
        ((if state.page ≠ w.view.current_page then [Call.setPage state.page] else []) ++
         (if state.sort ≠ w.view.current_sort then [Call.setSort state.sort] else [])) := by
  unfold statechange
  by_cases hp : state.page = w.view.current_page
  · simp only [hp, ne_eq, not_true_eq_false, if_false, pure, Except.pure, bind, Except.bind,
      List.nil_append, World.getSort]
    by_cases hs : state.sort = w.view.current_sort
    · simp [hs, finalWorld]
    · simp only [hs, not_false_eq_true, if_true, World.setSort]
      cases lib.setSort w.view state.sort <;> rfl
  · obtain ⟨v, hv, hsort⟩ := hpage hp
    simp only [hp, ne_eq, not_false_eq_true, if_true, bind, Except.bind, World.setPage, hv,
      World.call, pure, Except.pure, World.getSort, hsort]
    by_cases hs : state.sort = w.view.current_sort
    · simp [hs, finalWorld]
    · simp only [hs, not_false_eq_true, if_true, World.setSort]
      cases lib.setSort v state.sort <;> simp [World.call, finalWorld]

/-- A pager click that returns ends with one `pushState` that carries the
view's page and sort, and the `statechange` that replays the pushed state
makes no call. -/
theorem pager_a_click_then_statechange (lib : ViewLibrary) (link : PagerLink) (w w1 : World)
    (h : pager_a_click lib link w = Except.ok w1) :
    w1.calls.getLast? =
      some (Call.pushState { page := w1.view.current_page, sort := w1.view.current_sort }
        (w1.view.current_page + 1)) ∧
    statechange lib { page := w1.view.current_page, sort := w1.view.current_sort } w1 =
      Except.ok w1 := by
  refine ⟨?_, statechange_same lib w1⟩
  unfold pager_a_click at h
  cases link with
  | prev_page =>
    simp only [World.page, bind, Except.bind] at h
    cases hc : lib.page w.view (-1) <;> rw [hc] at h <;>
      simp [World.call, World.pushState, World.getSort] at h
    subst h
    simp
  | next_page =>
    simp only [World.page, bind, Except.bind] at h
    cases hc : lib.page w.view 1 <;> rw [hc] at h <;>
      simp [World.call, World.pushState, World.getSort] at h
    subst h
    simp
  | number shown =>
    simp only [World.setPage, bind, Except.bind] at h
    cases hc : lib.setPage w.view (shown - 1) <;> rw [hc] at h <;>
      simp [World.call, World.pushState, World.getSort] at h
    subst h
    simp

/-! ## JavaScript numbers: proofs -/

theorem bitLengthAux_spec (fuel m : Nat) (h : m ≤ fuel) (hm : m ≠ 0) :
    1 ≤ bitLengthAux fuel m ∧ 2 ^ (bitLengthAux fuel m - 1) ≤ m ∧
      m < 2 ^ bitLengthAux fuel m := by
  induction fuel generalizing m with
  | zero => omega
  | succ fuel ih =>
    rw [bitLengthAux, if_neg hm]
    by_cases h2 : m / 2 = 0
    · have h1 : m = 1 := by omega
      subst h1
      have : bitLengthAux fuel (1 / 2) = 0 := by
        cases fuel <;> simp [bitLengthAux]
      rw [this]
      simp
    · obtain ⟨i1, i2, i3⟩ := ih (m / 2) (by omega) h2
      refine ⟨by omega, ?_, ?_⟩
      · rw [Nat.add_sub_cancel]
        have : 2 ^ bitLengthAux fuel (m / 2) = 2 ^ (bitLengthAux fuel (m / 2) - 1) * 2 := by
          rw [← pow_succ]
          congr 1
          omega
        omega
      · rw [pow_succ]
        omega

theorem bitLength_spec (m : Nat) (hm : m ≠ 0) :
    1 ≤ bitLength m ∧ 2 ^ (bitLength m - 1) ≤ m ∧ m < 2 ^ bitLength m :=
  bitLengthAux_spec m m (le_refl m) hm

theorem bitLength_zero : bitLength 0 = 0 := rfl

theorem bitLength_le_of_lt (m k : Nat) (h : m < 2 ^ k) : bitLength m ≤ k := by
  by_cases hm : m = 0
  · subst hm
    simp [bitLength_zero]
  · obtain ⟨h1, h2, _⟩ := bitLength_spec m hm
    by_contra hc
    have : 2 ^ k ≤ 2 ^ (bitLength m - 1) := Nat.pow_le_pow_right (by decide) (by omega)
    omega

theorem roundNat_of_lt (m : Nat) (h : m < 2 ^ 53) : roundNat m = m := by
  unfold roundNat
  rw [if_pos h]

theorem roundNat_ge (m : Nat) (h : 2 ^ 53 ≤ m) : 2 ^ 53 ≤ roundNat m := by
  have hm : m ≠ 0 := by
    intro h0
    subst h0
    simp at h
  obtain ⟨_, h2, h3⟩ := bitLength_spec m hm
  have hb : 54 ≤ bitLength m := by
    by_contra hc
    have : 2 ^ bitLength m ≤ 2 ^ 53 := Nat.pow_le_pow_right (by decide) (by omega)
    omega
  have hu : 2 ^ (bitLength m - 1) = 2 ^ 52 * 2 ^ (bitLength m - 53) := by
    rw [← pow_add]
    congr 1
    omega
  have hupos : 0 < 2 ^ (bitLength m - 53) := pow_pos (by decide) _
  have hq : 2 ^ 52 ≤ m / 2 ^ (bitLength m - 53) := by
    rw [Nat.le_div_iff_mul_le hupos, ← hu]
    exact h2
  have hqu : 2 ^ 53 ≤ m / 2 ^ (bitLength m - 53) * 2 ^ (bitLength m - 53) := by
    have h53 : 2 ^ 53 ≤ 2 ^ (bitLength m - 1) := Nat.pow_le_pow_right (by decide) (by omega)
    calc 2 ^ 53 ≤ 2 ^ (bitLength m - 1) := h53
      _ = 2 ^ 52 * 2 ^ (bitLength m - 53) := hu
      _ ≤ m / 2 ^ (bitLength m - 53) * 2 ^ (bitLength m - 53) :=
        Nat.mul_le_mul_right _ hq
  have hqu1 : m / 2 ^ (bitLength m - 53) * 2 ^ (bitLength m - 53) ≤
      (m / 2 ^ (bitLength m - 53) + 1) * 2 ^ (bitLength m - 53) :=
    Nat.mul_le_mul_right _ (Nat.le_succ _)
  unfold roundNat
  rw [if_neg (by omega)]
  simp only
  split_ifs <;> omega

theorem roundNat_eq_zero (m : Nat) : roundNat m = 0 ↔ m = 0 := by
  constructor
  · intro h
    by_cases hlt : m < 2 ^ 53
    · rw [roundNat_of_lt m hlt] at h
      exact h
    · have := roundNat_ge m (by omega)
      omega
  · rintro rfl
    rfl

theorem roundNat_eq_of_lt (y x : Nat) (hx : x < 2 ^ 53) (h : roundNat y = x) : y = x := by
  by_cases hlt : y < 2 ^ 53
  · rw [roundNat_of_lt y hlt] at h
    exact h
  · have := roundNat_ge y (by omega)
    omega

theorem shortestRoundTripAux_of_lt (x e : Nat) (hx : x < 2 ^ 53) :
    shortestRoundTripAux x e = x := by
  induction e with
  | zero => rfl
  | succ e ih =>
    rw [shortestRoundTripAux]
    have hlo : x / 10 ^ (e + 1) * 10 ^ (e + 1) ≤ x := Nat.div_mul_le_self x _
    have hp : 0 < 10 ^ (e + 1) := pow_pos (by decide) _
    have hhi : decide (roundNat (x / 10 ^ (e + 1) * 10 ^ (e + 1) + 10 ^ (e + 1)) = x) = false := by
      rw [decide_eq_false_iff_not]
      intro h
      have heq := roundNat_eq_of_lt _ x hx h
      have hmod := Nat.mod_lt x hp
      have hdiv := Nat.div_add_mod x (10 ^ (e + 1))
      rw [Nat.mul_comm] at hdiv
      omega
    rw [hhi]
    simp only [Bool.and_false, Bool.false_eq_true, if_false]
    split_ifs with h1
    · simp only [decide_eq_true_eq, roundNat_of_lt _ (lt_of_le_of_lt hlo hx)] at h1
      exact h1.2
    · exact ih

theorem numToString_of_lt (num : Nat) (h : num < 2 ^ 53) :
    numToString num = Nat.toDigits 10 num := by
  have hb : ¬ 1025 ≤ bitLength num := by
    have := bitLength_le_of_lt num 53 h
    omega
  have hlen : (Nat.toDigits 10 num).length ≤ 21 := by
    have h16 : num < 10 ^ 16 := lt_trans h (by norm_num)
    have := Nat.toDigitsCore_length 10 (by decide) (num + 1) num 16 h16 (by decide)
    unfold Nat.toDigits
    omega
  unfold numToString
  simp only [roundNat_of_lt num h, hb, if_false, shortestRoundTrip,
    shortestRoundTripAux_of_lt num _ h, hlen, if_true]

theorem JSNumber.ofInt_of_small (x : Int) (h : x.natAbs < 2 ^ 53) :
    JSNumber.ofInt x = JSNumber.finite x := by
  have hb : ¬ 1025 ≤ bitLength x.natAbs := by
    have := bitLength_le_of_lt x.natAbs 53 h
    omega
  unfold JSNumber.ofInt
  simp only [roundNat_of_lt _ h, hb, if_false]
  congr 1
  split_ifs with hneg <;> omega

theorem roundNat_natAbs_eq_zero (x : Int) : roundNat x.natAbs = 0 ↔ x = 0 := by
  rw [roundNat_eq_zero]
  omega

theorem ne_zero_of_bitLength (x : Int) (hb : 1025 ≤ bitLength (roundNat x.natAbs)) : x ≠ 0 := by
  intro h0
  have h1 : roundNat x.natAbs = 0 := (roundNat_natAbs_eq_zero x).mpr h0
  rw [h1, bitLength_zero] at hb
  omega

theorem roundNat_natAbs_pos (x : Int) (hx : x ≠ 0) : (0 : Int) < (roundNat x.natAbs : Int) := by
  have h := mt (roundNat_natAbs_eq_zero x).mp hx
  omega

theorem JSNumber.ofInt_isPositive (x : Int) : (JSNumber.ofInt x).isPositive = true ↔ 0 < x := by
  unfold JSNumber.ofInt
  by_cases hb : 1025 ≤ bitLength (roundNat x.natAbs)
  · have hx := ne_zero_of_bitLength x hb
    simp only [hb, if_true, JSNumber.isPositive, Bool.not_eq_true', decide_eq_false_iff_not]
    omega
  · by_cases hneg : x < 0
    · have hm := roundNat_natAbs_pos x (by omega)
      simp only [hb, if_false, hneg, if_true, JSNumber.isPositive, decide_eq_true_eq]
      constructor <;> intro h <;> omega
    · simp only [hb, if_false, hneg, JSNumber.isPositive, decide_eq_true_eq]
      constructor
      · intro h
        by_contra hc
        have h0 : x = 0 := by omega
        rw [h0] at h
        simp [roundNat] at h
      · intro h
        exact roundNat_natAbs_pos x (by omega)

theorem JSNumber.ofInt_isNegative (x : Int) : (JSNumber.ofInt x).isNegative = true ↔ x < 0 := by
  unfold JSNumber.ofInt
  by_cases hb : 1025 ≤ bitLength (roundNat x.natAbs)
  · simp only [hb, if_true, JSNumber.isNegative, decide_eq_true_eq]
  · by_cases hneg : x < 0
    · have hm := roundNat_natAbs_pos x (by omega)
      simp only [hb, if_false, hneg, if_true, JSNumber.isNegative, decide_eq_true_eq, iff_true]
      omega
    · simp only [hb, if_false, hneg, JSNumber.isNegative, decide_eq_true_eq, iff_false]
      omega

theorem JSNumber.ofInt_eq_zero (x : Int) : JSNumber.ofInt x = JSNumber.finite 0 ↔ x = 0 := by
  unfold JSNumber.ofInt
  by_cases hb : 1025 ≤ bitLength (roundNat x.natAbs)
  · have hx := ne_zero_of_bitLength x hb
    simp only [hb, if_true, reduceCtorEq, false_iff]
    exact hx
  · by_cases hneg : x < 0
    · have hm := roundNat_natAbs_pos x (by omega)
      simp only [hb, if_false, hneg, if_true, JSNumber.finite.injEq]
      constructor <;> intro h <;> omega
    · simp only [hb, if_false, hneg, JSNumber.finite.injEq]
      constructor
      · intro h
        have := (roundNat_natAbs_eq_zero x).mp (by omega)
        exact this
      · intro h
        have := (roundNat_natAbs_eq_zero x).mpr h
        omega

theorem jsNegOneTimes_isPositive (y : JSNumber) :
    (jsNegOneTimes y).isPositive = y.isNegative := by
  cases y with
  | finite v =>
    simp only [jsNegOneTimes, JSNumber.isPositive, JSNumber.isNegative]
    congr 1
    apply propext
    constructor <;> intro h <;> omega
  | infinity negative => simp [jsNegOneTimes, JSNumber.isPositive, JSNumber.isNegative]
  | nan => rfl

/-! ## Comparators: proofs -/

/-- While the difference has fewer than 54 binary digits the numeric
comparator returns it exactly. -/
theorem NumericalSort_fn_exact (attr : NumAttr) (a b : Request)
    (h : (a.num attr - b.num attr).natAbs < 2 ^ 53) :
    NumericalSort_fn attr a b = JSNumber.finite (a.num attr - b.num attr) :=
  JSNumber.ofInt_of_small _ h

theorem TimestampSort_fn_isPositive (attr : TimeAttr) (a b : Request) :
    (TimestampSort_fn attr a b).isPositive = true ↔ b.getTime attr < a.getTime attr := by
  unfold TimestampSort_fn
  simp only
  split_ifs with h1 h2
  · simp [JSNumber.isPositive]; omega
  · simp [JSNumber.isPositive]; omega
  · simp [JSNumber.isPositive]; omega

theorem TimestampSort_fn_isNegative (attr : TimeAttr) (a b : Request) :
    (TimestampSort_fn attr a b).isNegative = true ↔ a.getTime attr < b.getTime attr := by
  unfold TimestampSort_fn
  simp only
  split_ifs with h1 h2
  · simp [JSNumber.isNegative]; omega
  · simp [JSNumber.isNegative]; omega
  · simp [JSNumber.isNegative]; omega

theorem asc_fn_isPositive (attr : OrderedAttr) (a b : Request) :
    (attr.asc.fn a b).isPositive = true ↔ attr.field b < attr.field a := by
  rcases attr with t | n
  · cases t <;> exact TimestampSort_fn_isPositive _ a b
  · cases n <;>
      simp only [OrderedAttr.asc, NumericalSort, NumericalSort_fn, jsSub, OrderedAttr.field,
        Request.num, JSNumber.ofInt_isPositive] <;> omega

theorem asc_fn_isNegative (attr : OrderedAttr) (a b : Request) :
    (attr.asc.fn a b).isNegative = true ↔ attr.field a < attr.field b := by
  rcases attr with t | n
  · cases t <;> exact TimestampSort_fn_isNegative _ a b
  · cases n <;>
      simp only [OrderedAttr.asc, NumericalSort, NumericalSort_fn, jsSub, OrderedAttr.field,
        Request.num, JSNumber.ofInt_isNegative] <;> omega

theorem asc_fn_nonpos (attr : OrderedAttr) (a b : Request) :
    (attr.asc.fn a b).isPositive = false ↔ attr.field a ≤ attr.field b := by
  rw [← Bool.not_eq_true, asc_fn_isPositive]
  omega

theorem dsc_fn_nonpos (attr : OrderedAttr) (a b : Request) :
    (attr.dsc.fn a b).isPositive = false ↔ attr.field b ≤ attr.field a := by
  have h : attr.dsc.fn a b = jsNegOneTimes (attr.asc.fn a b) := rfl
  rw [h, jsNegOneTimes_isPositive, ← Bool.not_eq_true, asc_fn_isNegative]
  omega

theorem sorted_perm_unique (attr : OrderedAttr) (l p q : List Request)
    (hd : l.Pairwise (fun a b => attr.field a ≠ attr.field b))
    (hp : p.Perm l) (hq : q.Perm l)
    (hps : SortedBy attr.asc.fn p) (hqs : SortedBy attr.dsc.fn q) : q = p.reverse := by
  have hsymm : Symmetric (fun a b : Request => attr.field a ≠ attr.field b) :=
    fun a b h => Ne.symm h
  have hdp : p.Pairwise (fun a b => attr.field a ≠ attr.field b) :=
    (hp.pairwise_iff (fun {a b} h => hsymm h)).mpr hd
  have hdq : q.Pairwise (fun a b => attr.field a ≠ attr.field b) :=
    (hq.pairwise_iff (fun {a b} h => hsymm h)).mpr hd
  have hp1 : p.Pairwise (fun a b => attr.field a < attr.field b) := by
    have := hps.and hdp
    refine this.imp ?_
    intro a b h
    exact lt_of_le_of_ne ((asc_fn_nonpos attr a b).mp h.1) h.2
  have hq1 : q.Pairwise (fun a b => attr.field b < attr.field a) := by
    have := hqs.and hdq
    refine this.imp ?_
    intro a b h
    exact lt_of_le_of_ne ((dsc_fn_nonpos attr a b).mp h.1) (Ne.symm h.2)
  have hq2 : q.reverse.Pairwise (fun a b => attr.field a < attr.field b) := by
    rw [List.pairwise_reverse]
    exact hq1
  have hperm : q.reverse.Perm p := (List.reverse_perm q).trans (hq.trans hp.symm)
  haveI : IsAntisymm Request (fun a b => attr.field a < attr.field b) :=
    ⟨fun a b h1 h2 => absurd h1 (lt_asymm h2)⟩
  have := List.eq_of_perm_of_sorted hperm hq2 hp1
  rw [← this, List.reverse_reverse]

theorem sorted_arrangement_exists (attr : OrderedAttr) (l : List Request) :
    (∃ p : List Request, p.Perm l ∧ SortedBy attr.asc.fn p) ∧
    (∃ q : List Request, q.Perm l ∧ SortedBy attr.dsc.fn q) := by
  haveI : IsTotal Request (fun a b => attr.field a ≤ attr.field b) :=
    ⟨fun a b => le_total _ _⟩
  haveI : IsTrans Request (fun a b => attr.field a ≤ attr.field b) :=
    ⟨fun a b c h1 h2 => le_trans h1 h2⟩
  have hs := List.sorted_insertionSort (fun a b : Request => attr.field a ≤ attr.field b) l
  have hperm := List.perm_insertionSort (fun a b : Request => attr.field a ≤ attr.field b) l
  refine ⟨⟨_, hperm, ?_⟩, ⟨_, (List.reverse_perm _).trans hperm, ?_⟩⟩
  · exact List.Pairwise.imp (fun {a b} h => (asc_fn_nonpos attr a b).mpr h) hs
  · unfold SortedBy
    rw [List.pairwise_reverse]
    exact List.Pairwise.imp (fun {a b} h => (dsc_fn_nonpos attr b a).mpr h) hs

theorem registry_split (statusSort : SortObject)
    (localeCompare : List Char → List Char → JSNumber) (attr : OrderedAttr) :
    ∃ base : List SortObject,
      addRequestSorts statusSort localeCompare = base ++ base.map ReversedSort ∧
      base.length = 11 ∧ statusSort ∈ base ∧ attr.asc ∈ base := by
  refine ⟨[statusSort] ++
      [AlphaAttr.alliance, AlphaAttr.corporation, AlphaAttr.pilot, AlphaAttr.ship,
        AlphaAttr.division, AlphaAttr.system].map (AlphabeticalSort localeCompare) ++
      [TimeAttr.kill_timestamp, TimeAttr.submit_timestamp].map TimestampSort ++
      [NumAttr.payout, NumAttr.id].map NumericalSort, rfl, rfl, by simp, ?_⟩
  rcases attr with t | n
  · cases t <;> simp [OrderedAttr.asc]
  · cases n <;> simp [OrderedAttr.asc]

theorem ordered_attr_names (attr : OrderedAttr) :
    attr.asc.name = attr.name ++ "_asc".toList ∧ attr.dsc.name = attr.name ++ "_dsc".toList := by
  rcases attr with t | n
  · cases t <;> exact ⟨rfl, rfl⟩
  · cases n <;> exact ⟨rfl, rfl⟩

/-! ## `padNum`: proofs -/

theorem padNumLoop_eq (width : Nat) (num : List Char) :
    padNumLoop width num = List.replicate (width - num.length) '0' ++ num := by
  generalize h : width - num.length = k
  induction k generalizing num with
  | zero =>
    rw [padNumLoop]
    have : ¬ num.length < width := by omega
    simp [this]
  | succ k ih =>
    rw [padNumLoop]
    have hlt : num.length < width := by omega
    rw [if_pos hlt, ih ('0' :: num) (by simp only [List.length_cons]; omega)]
    rw [List.replicate_succ']
    simp

theorem digitValue_digitChar (d : Nat) (h : d < 10) : digitValue (Nat.digitChar d) = d := by
  interval_cases d <;> rfl

theorem decimalValue_toDigitsCore (fuel n : Nat) (ds : List Char) (h : n < fuel) :
    (Nat.toDigitsCore 10 fuel n ds).foldl (fun acc c => 10 * acc + digitValue c) 0 =
      ds.foldl (fun acc c => 10 * acc + digitValue c) n := by
  induction fuel generalizing n ds with
  | zero => omega
  | succ fuel ih =>
    rw [Nat.toDigitsCore]
    have hd : digitValue (Nat.digitChar (n % 10)) = n % 10 :=
      digitValue_digitChar _ (Nat.mod_lt _ (by decide))
    by_cases h0 : n / 10 = 0
    · simp only [h0, if_true, List.foldl_cons, hd]
      congr 1
      omega
    · simp only [h0, if_false]
      rw [ih (n / 10) _ (by omega)]
      simp only [List.foldl_cons, hd]
      congr 1
      omega

theorem decimalValue_numToString (num : Nat) (h : num < 2 ^ 53) :
    decimalValue (numToString num) = num := by
  rw [numToString_of_lt num h]
  unfold decimalValue Nat.toDigits
  rw [decimalValue_toDigitsCore _ _ _ (Nat.lt_succ_self _)]
  rfl

theorem decimalValue_replicate_append (k : Nat) (s : List Char) :
    decimalValue (List.replicate k '0' ++ s) = decimalValue s := by
  unfold decimalValue
  induction k with
  | zero => simp
  | succ k ih =>
    rw [List.replicate_succ, List.cons_append, List.foldl_cons]
    have : 10 * 0 + digitValue '0' = 0 := by decide
    rw [this, ih]

/-! ## Token labels: proofs -/

theorem parseLabel_label (attr value : List Char) (h : ':' ∉ attr) :
    parseLabel (attr ++ ":".toList ++ value) = (some attr, value) := by
  unfold parseLabel
  have hfirst : (attr ++ ':' :: value).splitOnP (fun x => x == ':') =
      attr :: value.splitOnP (fun x => x == ':') :=
    List.splitOnP_first (fun x => x == ':') attr
      (by intro x hx; simp; rintro rfl; exact h hx) ':' (by simp) value
  have hsplit : (attr ++ ":".toList ++ value).splitOn ':' = attr :: value.splitOn ':' := by
    simpa [List.splitOn] using hfirst
  have hjoin : [':'].intercalate (value.splitOn ':') = value := List.intercalate_splitOn value ':'
  simp only [hsplit, List.head?_cons, List.drop_succ_cons, List.drop_zero]
  simpa using hjoin

/-! ## The claims -/

/-- C1 (the code departs from its reference): with `right_edge = 0` the last
pages are skipped and `pageNumbers(10, 0, ...)` ends in a `null`, which
`iter_pages`, shifted to 0-indexed pages, never yields after its last number:
the two sequences differ although the doc comment of `pageNumbers` asks for
identical behaviour. -/
theorem pageNumbers_trailing_gap_not_in_iter_pages :
    pageNumbers 10 0 (some noRightEdgeOptions) =
      [some 0, some 1, some 2, some 3, some 4, none] ∧
    iter_pages 10 (0 + 1) 2 2 5 0 = [some 1, some 2, some 3, some 4, some 5] ∧
    (iter_pages 10 (0 + 1) 2 2 5 0).map (Option.map (fun num => num - 1)) ≠
      (pageNumbers 10 0 (some noRightEdgeOptions)).map (Option.map Nat.cast) := by
  decide

/-- C2 (as stated, refuted): with the default options `pageNumbers(10, 0)` is not
the sequence `[0,1,2,3,4,5,6,null,8,9]`. -/
theorem pageNumbers_ten_zero_ne_claimed :
    pageNumbers 10 0 none ≠
      [some 0, some 1, some 2, some 3, some 4, some 5, some 6, none, some 8, some 9] := by
  decide

/-- C2 (amended): with the default options `pageNumbers(10, 0)` is exactly
`[0,1,2,3,4,null,8,9]`: the window around page 0 ends before index
`0 + right_current = 5`. -/
theorem pageNumbers_ten_zero :
    pageNumbers 10 0 none =
      [some 0, some 1, some 2, some 3, some 4, none, some 8, some 9] := by
  decide

/-- C3: for every `num_pages ≥ 0`, every integer `current_page` and every options
record, the non-null entries of `pageNumbers` are, strictly increasing, exactly
the indices of `[0, num_pages)` that satisfy one of the three conditions; the
output is the list of all indices with every maximal run of excluded indices
replaced by one `null` at its position; and no two `null`s are adjacent. -/
theorem pageNumbers_window (num_pages : Nat) (current_page : Int) (options : Options) :
    (pageNumbers num_pages current_page (some options)).reduceOption =
      (List.range num_pages).filter (included num_pages current_page options) ∧
    (pageNumbers num_pages current_page (some options)).reduceOption.Pairwise (· < ·) ∧
    (∀ i : Nat, some i ∈ pageNumbers num_pages current_page (some options) ↔
      (i < num_pages ∧
        ((i : Int) < options.left_edge ∨
          (current_page - options.left_current - 1 < (i : Int) ∧
            (i : Int) < current_page + options.right_current) ∨
          (i : Int) > (num_pages : Int) - options.right_edge - 1))) ∧
    pageNumbers num_pages current_page (some options) =
      windowSpec num_pages current_page options ∧
    List.Chain' (fun a b => ¬ (a = none ∧ b = none))
      (pageNumbers num_pages current_page (some options)) := by
  have hred : (pageNumbers num_pages current_page (some options)).reduceOption =
      (List.range num_pages).filter (included num_pages current_page options) := by
    rw [pageNumbers_eq_windowSpec, windowSpec, reduceOption_collapseGaps,
      reduceOption_map_included]
  refine ⟨hred, ?_, ?_, pageNumbers_eq_windowSpec _ _ _, ?_⟩
  · rw [hred]
    exact (List.pairwise_lt_range num_pages).filter _
  · intro i
    rw [← List.reduceOption_mem_iff, hred, List.mem_filter, List.mem_range]
    simp [included]
  · rw [pageNumbers_eq_windowSpec]
    exact chain_collapseGaps _

/-- C4 (the code departs from the claim): for the empty match set the page count
`Math.ceil(0/20 - 1) + 1` is `0`, not `1`, so `render` does not take the branch
that hides the pager: it emits a disabled previous arrow and an enabled next
arrow and leaves the `style` attribute as it was. -/
theorem renderPager_empty_match_set (pager : Pager) :
    numPages 0 = 0 ∧
    renderPager pager 0 0 =
      { hidden := pager.hidden, items := [PagerItem.prev_disabled, PagerItem.next_link] } := by
  refine ⟨numPages_zero, ?_⟩
  simp [renderPager, numPages_zero, pageNumbers]

/-- C5: the sort name the header click passes to `setSort` is `col_dsc` when the
current sort is `col_asc`, `col_asc` when it is `col_dsc`, and `col_asc` when
there is no current sort or the current sort belongs to another column; two
clicks starting from `col_asc` come back to `col_asc`; and whatever the current
sort, the result is `col_asc` or `col_dsc`, so the stem `col` is kept. -/
theorem headingClick_toggle (col other : List Char) (h : other ≠ col) :
    headingClick col (some (col ++ "_asc".toList)) = col ++ "_dsc".toList ∧
    headingClick col (some (col ++ "_dsc".toList)) = col ++ "_asc".toList ∧
    headingClick col none = col ++ "_asc".toList ∧
    headingClick col (some (other ++ "_asc".toList)) = col ++ "_asc".toList ∧
    headingClick col (some (other ++ "_dsc".toList)) = col ++ "_asc".toList ∧
    headingClick col (some (headingClick col (some (headingClick col
      (some (col ++ "_asc".toList)))))) = col ++ "_dsc".toList ∧
    headingClick col (some (headingClick col (some (col ++ "_asc".toList)))) =
      col ++ "_asc".toList ∧
    (∀ s : Option (List Char),
      headingClick col s = col ++ "_asc".toList ∨ headingClick col s = col ++ "_dsc".toList) := by
  refine ⟨headingClick_same_asc col, headingClick_same_dsc col, headingClick_none col,
    headingClick_other_asc col other h, headingClick_other_dsc col other h, ?_, ?_,
    headingClick_stem col⟩
  · rw [headingClick_same_asc, headingClick_same_dsc, headingClick_same_asc]
  · rw [headingClick_same_asc, headingClick_same_dsc]

/-- C5, instance: on the column `payout`, with the current sort `id_asc`. -/
theorem headingClick_toggle_witness :
    "id".toList ≠ "payout".toList ∧
    headingClick "payout".toList (some "payout_asc".toList) = "payout_dsc".toList ∧
    headingClick "payout".toList (some "payout_dsc".toList) = "payout_asc".toList ∧
    headingClick "payout".toList (some "id_asc".toList) = "payout_asc".toList :=
  ⟨by decide,
    (headingClick_toggle "payout".toList "id".toList (by decide)).1,
    (headingClick_toggle "payout".toList "id".toList (by decide)).2.1,
    (headingClick_toggle "payout".toList "id".toList (by decide)).2.2.2.1⟩

/-- C6: whatever the library does otherwise, when the call `setPage(state.page)`,
if it is made, returns and leaves the sort as it was (the page it installs may
be any, a clamped one included; `setSort` may return or throw): replaying a
history state calls `setPage(state.page)` once exactly when the page differs
from the view's, then `setSort(state.sort)` once exactly when the sort differs
from the view's, and nothing else, in particular no `History.pushState`; and
restoring the view's own state makes no call at all. -/
theorem statechange_replay (lib : ViewLibrary) (state : HistoryState) (w : World)
    (hpage : state.page ≠ w.view.current_page →
      ∃ v, lib.setPage w.view state.page = Outcome.returned v ∧
        v.current_sort = w.view.current_sort) :
    (finalWorld (statechange lib state w)).calls =
      w.calls ++
        ((if state.page ≠ w.view.current_page then [Call.setPage state.page] else []) ++
         (if state.sort ≠ w.view.current_sort then [Call.setSort state.sort] else [])) ∧
    (∀ data path_page,
      Call.pushState data path_page ∈ (finalWorld (statechange lib state w)).calls →
      Call.pushState data path_page ∈ w.calls) ∧
    statechange lib { page := w.view.current_page, sort := w.view.current_sort } w =
      Except.ok w := by
  refine ⟨statechange_calls lib state w hpage, ?_, statechange_same lib w⟩
  intro data path_page hmem
  rw [statechange_calls lib state w hpage] at hmem
  simp only [List.mem_append] at hmem
  rcases hmem with h | h | h
  · exact h
  · split_ifs at h <;> simp at h
  · split_ifs at h <;> simp at h

/-- C6, instances on a view of two pages at `{page: 0, sort: false}`: restoring
`{page: 1, sort: 'status_asc'}` makes exactly the calls `setPage(1)` and
`setSort('status_asc')`; restoring `{page: 5, sort: 'bogus_asc'}`, where the
library clamps the page and throws on the sort, makes exactly the calls
`setPage(5)` and `setSort('bogus_asc')`. -/
theorem statechange_replay_witness :
    ((1 : Int) ≠ 0 →
      ∃ v, (clampingLibrary 2 ["status_asc".toList]).setPage
          { current_page := 0, current_sort := none } 1 = Outcome.returned v ∧
        v.current_sort = none) ∧
    (finalWorld (statechange (clampingLibrary 2 ["status_asc".toList])
        { page := 1, sort := some "status_asc".toList }
        { view := { current_page := 0, current_sort := none }, calls := [] })).calls =
      [Call.setPage 1, Call.setSort (some "status_asc".toList)] ∧
    (finalWorld (statechange (clampingLibrary 2 ["status_asc".toList])
        { page := 5, sort := some "bogus_asc".toList }
        { view := { current_page := 0, current_sort := none }, calls := [] })).calls =
      [Call.setPage 5, Call.setSort (some "bogus_asc".toList)] :=
  ⟨fun _ => ⟨_, rfl, rfl⟩,
    (statechange_replay (clampingLibrary 2 ["status_asc".toList])
      { page := 1, sort := some "status_asc".toList }
      { view := { current_page := 0, current_sort := none }, calls := [] }
      (fun _ => ⟨_, rfl, rfl⟩)).1,
    (statechange_replay (clampingLibrary 2 ["status_asc".toList])
      { page := 5, sort := some "bogus_asc".toList }
      { view := { current_page := 0, current_sort := none }, calls := [] }
      (fun _ => ⟨_, rfl, rfl⟩)).1⟩

/-- C7 (as stated, refuted): for the payouts 1 and 3 the numeric comparator
returns `-2`, the difference, not `-1`. -/
theorem NumericalSort_fn_not_sign :
    (sampleRequest 1 1 0 0).payout < (sampleRequest 2 3 0 0).payout ∧
    NumericalSort_fn NumAttr.payout (sampleRequest 1 1 0 0) (sampleRequest 2 3 0 0) =
      JSNumber.finite (-2) ∧
    NumericalSort_fn NumAttr.payout (sampleRequest 1 1 0 0) (sampleRequest 2 3 0 0) ≠
      JSNumber.finite (-1) := by
  decide

/-- C7 (amended): the numeric comparators of `payout` and `id` return the
difference of the two values as a JavaScript number: it is negative exactly
when `a.attr < b.attr`, zero exactly when the values are equal and positive
exactly when `a.attr > b.attr`, and it is the exact difference while that has
fewer than 54 binary digits. -/
theorem NumericalSort_fn_sign (a b : Request) :
    ((NumericalSort_fn NumAttr.payout a b).isNegative = true ↔ a.payout < b.payout) ∧
    (NumericalSort_fn NumAttr.payout a b = JSNumber.finite 0 ↔ a.payout = b.payout) ∧
    ((NumericalSort_fn NumAttr.payout a b).isPositive = true ↔ a.payout > b.payout) ∧
    ((NumericalSort_fn NumAttr.id a b).isNegative = true ↔ a.id < b.id) ∧
    (NumericalSort_fn NumAttr.id a b = JSNumber.finite 0 ↔ a.id = b.id) ∧
    ((NumericalSort_fn NumAttr.id a b).isPositive = true ↔ a.id > b.id) ∧
    ((a.payout - b.payout).natAbs < 2 ^ 53 →
      NumericalSort_fn NumAttr.payout a b = JSNumber.finite (a.payout - b.payout)) ∧
    ((a.id - b.id).natAbs < 2 ^ 53 →
      NumericalSort_fn NumAttr.id a b = JSNumber.finite (a.id - b.id)) := by
  simp only [NumericalSort_fn, jsSub, Request.num, JSNumber.ofInt_isNegative,
    JSNumber.ofInt_isPositive, JSNumber.ofInt_eq_zero]
  refine ⟨by omega, by omega, by omega, by omega, by omega, by omega, ?_, ?_⟩
  · exact fun h => JSNumber.ofInt_of_small _ h
  · exact fun h => JSNumber.ofInt_of_small _ h

/-- C7, instance: the payouts 1 and 3 and the ids 7 and 4. -/
theorem NumericalSort_fn_sign_witness :
    NumericalSort_fn NumAttr.payout (sampleRequest 7 1 0 0) (sampleRequest 4 3 0 0) =
      JSNumber.finite (-2) ∧
    NumericalSort_fn NumAttr.id (sampleRequest 7 1 0 0) (sampleRequest 4 3 0 0) =
      JSNumber.finite 3 :=
  ⟨(NumericalSort_fn_sign (sampleRequest 7 1 0 0) (sampleRequest 4 3 0 0)).2.2.2.2.2.2.1
      (by decide),
    (NumericalSort_fn_sign (sampleRequest 7 1 0 0) (sampleRequest 4 3 0 0)).2.2.2.2.2.2.2
      (by decide)⟩

/-- C8: the registry is a list of base sorts followed by the reversed sort of
each of them, the comparator of a reversed sort is `-1` times the comparator
of the sort it wraps, and the `_asc` sort of each timestamp and numerical
attribute is among the base sorts, its reversed sort being named `_dsc`; every
list has an arrangement sorted by each of the two; and when the values of the
attribute's field are pairwise distinct in the list `l`, an arrangement `q` of
`l` sorted by the `_dsc` comparator is the reverse of an arrangement `p` of `l`
sorted by the `_asc` comparator. -/
theorem reversed_sort_reverses (statusSort : SortObject)
    (localeCompare : List Char → List Char → JSNumber)
    (attr : OrderedAttr) (l p q : List Request)
    (hd : l.Pairwise (fun a b => attr.field a ≠ attr.field b))
    (hp : p.Perm l) (hq : q.Perm l)
    (hps : SortedBy attr.asc.fn p) (hqs : SortedBy attr.dsc.fn q) :
    (∃ base : List SortObject,
      addRequestSorts statusSort localeCompare = base ++ base.map ReversedSort ∧
      base.length = 11 ∧ statusSort ∈ base ∧ attr.asc ∈ base) ∧
    ((∀ (base : SortObject) (a b : Request),
        (ReversedSort base).fn a b = jsNegOneTimes (base.fn a b)) ∧
      (∀ value : Int, jsNegOneTimes (JSNumber.finite value) = JSNumber.finite (-1 * value))) ∧
    (attr.asc.name = attr.name ++ "_asc".toList ∧
      attr.dsc.name = attr.name ++ "_dsc".toList ∧
      attr.dsc = ReversedSort attr.asc) ∧
    ((∃ p0 : List Request, p0.Perm l ∧ SortedBy attr.asc.fn p0) ∧
      (∃ q0 : List Request, q0.Perm l ∧ SortedBy attr.dsc.fn q0)) ∧
    q = p.reverse :=
  ⟨registry_split statusSort localeCompare attr,
    ⟨fun _ _ _ => rfl, fun _ => rfl⟩,
    ⟨(ordered_attr_names attr).1, (ordered_attr_names attr).2, rfl⟩,
    sorted_arrangement_exists attr l,
    sorted_perm_unique attr l p q hd hp hq hps hqs⟩

/-- C8, instances: three requests whose four fields order them in four
different ways; for `kill_timestamp`, `submit_timestamp`, `payout` and `id` the
arrangement sorted by `_dsc` is the reverse of the one sorted by `_asc`. -/
theorem reversed_sort_reverses_witness :
    (sampleRequests.Pairwise (fun a b =>
        (OrderedAttr.time TimeAttr.kill_timestamp).field a ≠
          (OrderedAttr.time TimeAttr.kill_timestamp).field b) ∧
      [sampleRequest 3 3 10 300, sampleRequest 1 5 20 200, sampleRequest 2 1 30 100].Perm
        sampleRequests ∧
      [sampleRequest 2 1 30 100, sampleRequest 1 5 20 200, sampleRequest 3 3 10 300].Perm
        sampleRequests ∧
      SortedBy (TimestampSort TimeAttr.kill_timestamp).fn
        [sampleRequest 3 3 10 300, sampleRequest 1 5 20 200, sampleRequest 2 1 30 100] ∧
      SortedBy (ReversedSort (TimestampSort TimeAttr.kill_timestamp)).fn
        [sampleRequest 2 1 30 100, sampleRequest 1 5 20 200, sampleRequest 3 3 10 300] ∧
      [sampleRequest 2 1 30 100, sampleRequest 1 5 20 200, sampleRequest 3 3 10 300] =
        [sampleRequest 3 3 10 300, sampleRequest 1 5 20 200,
          sampleRequest 2 1 30 100].reverse) ∧
    (SortedBy (TimestampSort TimeAttr.submit_timestamp).fn
        [sampleRequest 2 1 30 100, sampleRequest 1 5 20 200, sampleRequest 3 3 10 300] ∧
      SortedBy (ReversedSort (TimestampSort TimeAttr.submit_timestamp)).fn
        [sampleRequest 3 3 10 300, sampleRequest 1 5 20 200, sampleRequest 2 1 30 100] ∧
      [sampleRequest 3 3 10 300, sampleRequest 1 5 20 200, sampleRequest 2 1 30 100] =
        [sampleRequest 2 1 30 100, sampleRequest 1 5 20 200,
          sampleRequest 3 3 10 300].reverse) ∧
    (SortedBy (NumericalSort NumAttr.payout).fn
        [sampleRequest 2 1 30 100, sampleRequest 3 3 10 300, sampleRequest 1 5 20 200] ∧
      SortedBy (ReversedSort (NumericalSort NumAttr.payout)).fn
        [sampleRequest 1 5 20 200, sampleRequest 3 3 10 300, sampleRequest 2 1 30 100] ∧
      [sampleRequest 1 5 20 200, sampleRequest 3 3 10 300, sampleRequest 2 1 30 100] =
        [sampleRequest 2 1 30 100, sampleRequest 3 3 10 300,
          sampleRequest 1 5 20 200].reverse) ∧
    (SortedBy (NumericalSort NumAttr.id).fn
        [sampleRequest 1 5 20 200, sampleRequest 2 1 30 100, sampleRequest 3 3 10 300] ∧
      SortedBy (ReversedSort (NumericalSort NumAttr.id)).fn
        [sampleRequest 3 3 10 300, sampleRequest 2 1 30 100, sampleRequest 1 5 20 200] ∧
      [sampleRequest 3 3 10 300, sampleRequest 2 1 30 100, sampleRequest 1 5 20 200] =
        [sampleRequest 1 5 20 200, sampleRequest 2 1 30 100,
          sampleRequest 3 3 10 300].reverse) :=
  ⟨⟨by decide, by decide, by decide, by decide, by decide,
      (reversed_sort_reverses (NumericalSort NumAttr.id) (fun _ _ => JSNumber.finite 0)
        (OrderedAttr.time TimeAttr.kill_timestamp) sampleRequests
        [sampleRequest 3 3 10 300, sampleRequest 1 5 20 200, sampleRequest 2 1 30 100]
        [sampleRequest 2 1 30 100, sampleRequest 1 5 20 200, sampleRequest 3 3 10 300]
        (by decide) (by decide) (by decide) (by decide) (by decide)).2.2.2.2⟩,
    ⟨by decide, by decide,
      (reversed_sort_reverses (NumericalSort NumAttr.id) (fun _ _ => JSNumber.finite 0)
        (OrderedAttr.time TimeAttr.submit_timestamp) sampleRequests
        [sampleRequest 2 1 30 100, sampleRequest 1 5 20 200, sampleRequest 3 3 10 300]
        [sampleRequest 3 3 10 300, sampleRequest 1 5 20 200, sampleRequest 2 1 30 100]
        (by decide) (by decide) (by decide) (by decide) (by decide)).2.2.2.2⟩,
    ⟨by decide, by decide,
      (reversed_sort_reverses (NumericalSort NumAttr.id) (fun _ _ => JSNumber.finite 0)
        (OrderedAttr.num NumAttr.payout) sampleRequests
        [sampleRequest 2 1 30 100, sampleRequest 3 3 10 300, sampleRequest 1 5 20 200]
        [sampleRequest 1 5 20 200, sampleRequest 3 3 10 300, sampleRequest 2 1 30 100]
        (by decide) (by decide) (by decide) (by decide) (by decide)).2.2.2.2⟩,
    ⟨by decide, by decide,
      (reversed_sort_reverses (NumericalSort NumAttr.id) (fun _ _ => JSNumber.finite 0)
        (OrderedAttr.num NumAttr.id) sampleRequests
        [sampleRequest 1 5 20 200, sampleRequest 2 1 30 100, sampleRequest 3 3 10 300]
        [sampleRequest 3 3 10 300, sampleRequest 2 1 30 100, sampleRequest 1 5 20 200]
        (by decide) (by decide) (by decide) (by decide) (by decide)).2.2.2.2⟩⟩

set_option maxRecDepth 100000 in
/-- C9 (as stated, refuted): `padNum(1e21, 25)` is twenty zeros followed by
`1e+21`, not three zeros followed by the 22 decimal digits of `10 ^ 21`; and
`padNum(2 ^ 60, 0)` is `1152921504606847000`, which does not denote `2 ^ 60`. -/
theorem padNum_large_numbers :
    padNum (10 ^ 21) 25 = "000000000000000000001e+21".toList ∧
    padNum (10 ^ 21) 25 ≠
      List.replicate (25 - (Nat.toDigits 10 (10 ^ 21)).length) '0' ++
        Nat.toDigits 10 (10 ^ 21) ∧
    padNum (2 ^ 60) 0 = "1152921504606847000".toList ∧
    decimalValue (padNum (2 ^ 60) 0) ≠ 2 ^ 60 := by
  have h1 : numToString (10 ^ 21) = "1e+21".toList := by decide
  have h2 : numToString (2 ^ 60) = "1152921504606847000".toList := by decide
  have e1 : padNum (10 ^ 21) 25 = "000000000000000000001e+21".toList := by
    unfold padNum
    rw [padNumLoop_eq, h1]
    decide
  have e2 : padNum (2 ^ 60) 0 = "1152921504606847000".toList := by
    unfold padNum
    rw [padNumLoop_eq, h2]
    decide
  refine ⟨e1, ?_, e2, ?_⟩
  · rw [e1]
    decide
  · rw [e2]
    decide

/-- C9 (amended): for every natural number `num` below `2 ^ 53` and every
natural number `width`, `num + ''` is the decimal string of `num`, and
`padNum(num, width)` is total and returns that string with
`max(0, width - len)` characters `0` in front, `len` being its length; the
result has length `max(len, width)`, is the decimal string itself when
`len ≥ width`, and denotes the number `num`. -/
theorem padNum_pads (num width : Nat) (h : num < 2 ^ 53) :
    numToString num = Nat.toDigits 10 num ∧
    padNum num width =
      List.replicate (width - (Nat.toDigits 10 num).length) '0' ++ Nat.toDigits 10 num ∧
    (padNum num width).length = max (Nat.toDigits 10 num).length width ∧
    (padNum num width = if width ≤ (Nat.toDigits 10 num).length then Nat.toDigits 10 num
      else List.replicate (width - (Nat.toDigits 10 num).length) '0' ++
        Nat.toDigits 10 num) ∧
    decimalValue (Nat.toDigits 10 num) = num ∧
    decimalValue (padNum num width) = num := by
  have hs := numToString_of_lt num h
  have hv := decimalValue_numToString num h
  rw [hs] at hv
  have hpad : padNum num width =
      List.replicate (width - (Nat.toDigits 10 num).length) '0' ++ Nat.toDigits 10 num := by
    unfold padNum
    rw [padNumLoop_eq, hs]
  refine ⟨hs, hpad, ?_, ?_, hv, ?_⟩
  · rw [hpad, List.length_append, List.length_replicate]
    omega
  · rw [hpad]
    split_ifs with hw
    · simp [Nat.sub_eq_zero_of_le hw]
    · rfl
  · rw [hpad, decimalValue_replicate_append, hv]

/-- C9, instances: the minutes 5 and 59 padded to the width 2, as `render`
does. -/
theorem padNum_pads_witness :
    5 < 2 ^ 53 ∧ padNum 5 2 = "05".toList ∧ padNum 59 2 = "59".toList :=
  ⟨by decide, (padNum_pads 5 2 (by decide)).2.1, (padNum_pads 59 2 (by decide)).2.1⟩

/-- C10: for an attribute name without `:` and any value, the pair that
`addedToken` and `removedToken` parse out of the label built by `modifyToken`
is the original pair: the filter queried is the one of the attribute and the
value is unchanged. -/
theorem token_label_roundtrip (attr value label : List Char) (h : ':' ∉ attr) :
    (modifyToken { attr := attr, value := value, label := label }).label =
      attr ++ ":".toList ++ value ∧
    parseLabel (modifyToken { attr := attr, value := value, label := label }).label =
      (some attr, value) ∧
    addedToken (modifyToken { attr := attr, value := value, label := label }) =
      FilterCall.unionQuery (some attr) value ∧
    removedToken (modifyToken { attr := attr, value := value, label := label }) =
      FilterCall.removeSingleQuery (some attr) value := by
  have hp := parseLabel_label attr value h
  refine ⟨rfl, hp, ?_, ?_⟩
  · simp only [addedToken, modifyToken, hp]
  · simp only [removedToken, modifyToken, hp]

/-- C10, instance: the attribute `pilot` with the value `a:b::c`, and with the
empty value. -/
theorem token_label_roundtrip_witness :
    ':' ∉ "pilot".toList ∧
    addedToken (modifyToken { attr := "pilot".toList, value := "a:b::c".toList, label := [] }) =
      FilterCall.unionQuery (some "pilot".toList) "a:b::c".toList ∧
    removedToken (modifyToken { attr := "pilot".toList, value := [], label := [] }) =
      FilterCall.removeSingleQuery (some "pilot".toList) [] :=
  ⟨by decide,
    (token_label_roundtrip "pilot".toList "a:b::c".toList [] (by decide)).2.2.1,
    (token_label_roundtrip "pilot".toList [] [] (by decide)).2.2.2⟩

end EveSRP
